import Mathlib

/-!
Shallow embedding of `primitives/runtime-interface/proc-macro/src/runtime_interface/
bare_function_interface.rs`: the generator that emits, for each method of a
runtime-interface trait, the bare host/wasm functions and the versioned host
implementations.  The Rust code manipulates `syn`/`proc_macro2` token streams;
here the input trait and the emitted items are modelled as explicit data, and
each Rust function of the source file becomes a Lean function of the same name
over that data.
-/

namespace BareFunctionInterface

/-- A typed function argument: a name and a type, both rendered as strings. -/
structure Arg where
  name : String
  ty : String
deriving DecidableEq

/-- One input of a `syn` signature: either the `self` receiver or a typed argument. -/
inductive FnArg where
  | receiver
  | typed (arg : Arg)
deriving DecidableEq

/-- The signature of a trait method: identifier, ordered inputs, optional return type. -/
structure Signature where
  ident : String
  inputs : List FnArg
  output : Option String
deriving DecidableEq

/-- A declarative attribute on a method: the path identifier (e.g. `doc`, `deprecated`,
`version`) plus its remaining tokens, rendered as a string. -/
structure Attr where
  path : String
  tokens : String
deriving DecidableEq

/-- A single trait method declaration: signature plus attributes. -/
structure TraitItemMethod where
  sig : Signature
  attrs : List Attr
deriving DecidableEq

/-- Modelled from the spec: the parsed trait (`syn::ItemTrait`).  The upstream parser
(`get_runtime_interface` and friends, outside this source file) associates each method
declaration with its declared version (`version` attribute, default 1); we carry that
association directly. -/
structure ItemTrait where
  ident : String
  items : List (Nat × TraitItemMethod)
deriving DecidableEq

/-- A generation error, as produced by the upstream parser. -/
structure GenError where
  message : String
deriving DecidableEq

/-- Returns if the given `Signature` takes a `self` argument. -/
def takes_self_argument (sig : Signature) : Bool :=
  match sig.inputs.head? with
  | some FnArg.receiver => true
  | _ => false

/-- Modelled from the spec: `get_function_arguments` (in `utils`, not in this source
file) yields the declared typed argument declarations in order, skipping the receiver. -/
def get_function_arguments (sig : Signature) : List Arg :=
  sig.inputs.filterMap (fun i =>
    match i with
    | FnArg.typed a => some a
    | FnArg.receiver => none)

/-- Modelled from the spec: `get_function_argument_names` yields only the argument
names, in order; same length as `get_function_arguments`. -/
def get_function_argument_names (sig : Signature) : List String :=
  (get_function_arguments sig).map Arg.name

/-- Modelled from the spec: `create_function_ident_with_version` derives the versioned
identifier `name_version_N` from the base method identifier and the version. -/
def create_function_ident_with_version (ident : String) (version : Nat) : String :=
  ident ++ "_version_" ++ toString version

/-- Modelled from the spec: `create_exchangeable_host_function_ident` derives the
symbol of the exchangeable host-function handle for a method (`host_name`). -/
def create_exchangeable_host_function_ident (ident : String) : String :=
  "host_" ++ ident

/-- Modelled from the spec: `generate_crate_access` yields the token path by which the
emitted code refers to the runtime support crate. -/
def generate_crate_access : String :=
  "sp_runtime_interface"

/-- The view over the parsed trait returned by `get_runtime_interface`:
`(version, method)` pairs for every declared method version. -/
structure RuntimeInterface where
  items : List (Nat × TraitItemMethod)
deriving DecidableEq

/-- Keep, for each method name, only the last declaration carrying that name.  Under
the parser invariant (per-name versions strictly increasing) the survivor is the
highest version of each method. -/
def latestOnly : List (Nat × TraitItemMethod) → List (Nat × TraitItemMethod)
  | [] => []
  | p :: rest =>
    if rest.any (fun q => q.2.sig.ident == p.2.sig.ident) then latestOnly rest
    else p :: latestOnly rest

/-- Every `(version, method)` pair, including historical ones. -/
def RuntimeInterface.all_versions (r : RuntimeInterface) : List (Nat × TraitItemMethod) :=
  r.items

/-- Each method paired with its highest declared version. -/
def RuntimeInterface.latest_versions (r : RuntimeInterface) : List (Nat × TraitItemMethod) :=
  latestOnly r.items

/-- Whether a list of version numbers is strictly increasing. -/
def strictlyIncreasing : List Nat → Bool
  | [] => true
  | [_] => true
  | a :: b :: rest => decide (a < b) && strictlyIncreasing (b :: rest)

/-- The declared versions of the method called `name`, in declaration order. -/
def methodVersions (items : List (Nat × TraitItemMethod)) (name : String) : List Nat :=
  (items.filter (fun p => p.2.sig.ident == name)).map Prod.fst

/-- Modelled from the spec: `get_runtime_interface` (in `utils`, not in this source
file) validates the parsed trait — rejecting malformed method sets, whose per-name
version numbers are not strictly increasing — and returns the two ordered views. -/
def get_runtime_interface (trait_def : ItemTrait) : Except GenError RuntimeInterface :=
  if (trait_def.items.map (fun p => p.2.sig.ident)).all
      (fun n => strictlyIncreasing (methodVersions trait_def.items n))
  then Except.ok ⟨trait_def.items⟩
  else Except.error ⟨"Invalid runtime interface: method versions must be strictly increasing"⟩

/-! ### The emitted output, modelled as data

The Rust code emits `proc_macro2::TokenStream`s through `quote!`.  Each emitted item
is a function; we model the stream as a list of `EmittedFn` records whose fields
mirror the emitted syntax. -/

/-- The build-configuration gate on an emitted function. -/
inductive CfgGate where
  | std
  | noStd
deriving DecidableEq

/-- One parameter of an emitted function: optional `mut` pattern, name, type. -/
structure Param where
  isMut : Bool
  name : String
  ty : String
deriving DecidableEq

/-- The capability trait the interface trait is treated as implemented for in the
no-receiver dispatch: `crate::Externalities` or `crate::sp_wasm_interface::FunctionContext`. -/
inductive ImplTraitRef where
  | externalities
  | functionContext
deriving DecidableEq

/-- The shape `Trait::method_name(&mut inst, arg_names…,)`. -/
structure TraitCall where
  traitName : String
  methodName : String
  inst : String
  argNames : List String
deriving DecidableEq

/-- The dispatch expression produced by `generate_call_to_trait`. -/
inductive CallToTrait where
  | withExternalities (inst : String) (impl_ : TraitCall) (expectMsg : String)
  | direct (impl_ : TraitCall)
  | qualified (implTrait : ImplTraitRef) (traitName : String) (methodName : String)
      (argNames : List String)
deriving DecidableEq

/-- The body of an emitted function. -/
inductive FnBody where
  | hostCall (handle : String) (argNames : List String)
  | forward (callee : String) (argNames : List String)
  | versioned (spanLit : String) (call : CallToTrait)
deriving DecidableEq

/-- An emitted function item. -/
structure EmittedFn where
  cfg : CfgGate
  attrs : List Attr
  isPub : Bool
  name : String
  params : List Param
  output : Option String
  body : FnBody
deriving DecidableEq

/-- The emitted list of a generation result (`[]` on error); errors are settled
separately, via the `Except` layer itself. -/
def emitted (e : Except GenError (List EmittedFn)) : List EmittedFn :=
  match e with
  | Except.ok l => l
  | Except.error _ => []

/-- Generate the call to the interface trait. -/
def generate_call_to_trait (trait_name : String) (method : TraitItemMethod) (version : Nat)
    (is_wasm_only : Bool) : CallToTrait :=
  let method_name := create_function_ident_with_version method.sig.ident version
  let expect_msg :=
    "`" ++ method_name ++ "` called outside of an Externalities-provided environment."
  let arg_names := get_function_argument_names method.sig
  if takes_self_argument method.sig then
    let inst := if is_wasm_only then ("__function_context__") else ("__externalities__")
    let impl_ : TraitCall := ⟨trait_name, method_name, inst, arg_names⟩
    if is_wasm_only then
      CallToTrait.direct impl_
    else
      CallToTrait.withExternalities inst impl_ expect_msg
  else
    let impl_trait_name :=
      if is_wasm_only then ImplTraitRef.functionContext else ImplTraitRef.externalities
    CallToTrait.qualified impl_trait_name trait_name method_name arg_names

/-- The generator-introduced trailing parameter
`mut __function_context__: &mut dyn crate::sp_wasm_interface::FunctionContext`. -/
def functionContextParam : Param :=
  ⟨true, "__function_context__",
    "&mut dyn " ++ generate_crate_access ++ "::sp_wasm_interface::FunctionContext"⟩

/-- Generates the bare function implementation for `cfg(not(feature = "std"))`. -/
def function_no_std_impl (method : TraitItemMethod) : Except GenError (List EmittedFn) :=
  let function_name := method.sig.ident
  let host_function_name := create_exchangeable_host_function_ident method.sig.ident
  let args := get_function_arguments method.sig
  let arg_names := get_function_argument_names method.sig
  let return_value := method.sig.output
  let attrs := method.attrs.filter (fun a => !(a.path == "version"))
  Except.ok [{
    cfg := CfgGate.noStd
    attrs := attrs
    isPub := true
    name := function_name
    params := args.map (fun a => ⟨false, a.name, a.ty⟩)
    output := return_value
    body := FnBody.hostCall host_function_name arg_names }]

/-- Generate the call to the latest function version for `cfg(feature = "std")`:
`fn func(..) { func_version_<latest_version>(..) }`. -/
def function_std_latest_impl (method : TraitItemMethod) (latest_version : Nat) :
    Except GenError (List EmittedFn) :=
  let function_name := method.sig.ident
  let args := get_function_arguments method.sig
  let arg_names := get_function_argument_names method.sig
  let return_value := method.sig.output
  let attrs := method.attrs.filter (fun a => !(a.path == "version"))
  let latest_function_name :=
    create_function_ident_with_version method.sig.ident latest_version
  Except.ok [{
    cfg := CfgGate.std
    attrs := attrs
    isPub := true
    name := function_name
    params := args.map (fun a => ⟨false, a.name, a.ty⟩)
    output := return_value
    body := FnBody.forward latest_function_name arg_names }]

/-- Generates the versioned host implementation for `cfg(feature = "std")`. -/
def function_std_impl (trait_name : String) (method : TraitItemMethod) (version : Nat)
    (is_wasm_only : Bool) : Except GenError (List EmittedFn) :=
  let function_name := create_function_ident_with_version method.sig.ident version
  let function_name_str := function_name
  let args := (get_function_arguments method.sig).map
      (fun a => (⟨false, a.name, a.ty⟩ : Param))
    ++ (if is_wasm_only then [functionContextParam] else [])
  let return_value := method.sig.output
  let attrs := method.attrs.filter (fun a => !(a.path == "version"))
  let call_to_trait := generate_call_to_trait trait_name method version is_wasm_only
  Except.ok [{
    cfg := CfgGate.std
    attrs := attrs
    isPub := false
    name := function_name
    params := args
    output := return_value
    body := FnBody.versioned function_name_str call_to_trait }]

/-- Generates the bare function implementation for the given method for the host and
wasm side. -/
def function_for_method (method : TraitItemMethod) (latest_version : Nat)
    (is_wasm_only : Bool) : Except GenError (List EmittedFn) := do
  let std_impl ←
    if !is_wasm_only then function_std_latest_impl method latest_version
    else pure []
  let no_std_impl ← function_no_std_impl method
  pure (std_impl ++ no_std_impl)

/-- Generate one bare function per trait method, followed by every versioned host
implementation. -/
def generate (trait_def : ItemTrait) (is_wasm_only : Bool) :
    Except GenError (List EmittedFn) := do
  let trait_name := trait_def.ident
  let runtime_interface ← get_runtime_interface trait_def
  let token_stream : Except GenError (List EmittedFn) :=
    runtime_interface.latest_versions.foldlM
      (fun t p => do
        let fns ← function_for_method p.2 p.1 is_wasm_only
        pure (t ++ fns))
      []
  let start ← token_stream
  runtime_interface.all_versions.foldlM
    (fun t p => do
      let fns ← function_std_impl trait_name p.2 p.1 is_wasm_only
      pure (t ++ fns))
    start

/-- Whether a dispatch expression mentions the identifier `n` (as the capability
instance or as a forwarded argument name). -/
def mentionsIdent (n : String) : CallToTrait → Bool
  | CallToTrait.withExternalities inst impl_ _ =>
      n == inst || n == impl_.inst || impl_.argNames.contains n
  | CallToTrait.direct impl_ => n == impl_.inst || impl_.argNames.contains n
  | CallToTrait.qualified _ _ _ argNames => argNames.contains n

/-- The concatenated output of a successful generation: bare functions for the latest
versions first, then every versioned host implementation. -/
def generatedList (t : ItemTrait) (ri : RuntimeInterface) (w : Bool) : List EmittedFn :=
  ri.latest_versions.flatMap (fun p => emitted (function_for_method p.2 p.1 w))
    ++ ri.all_versions.flatMap (fun p => emitted (function_std_impl t.ident p.2 p.1 w))

/-! ### Concrete inputs used to instantiate the universally quantified results -/

/-- A free (receiver-less) method `fn len(x: u32) -> u32`. -/
def mLen : TraitItemMethod :=
  ⟨⟨"len", [FnArg.typed ⟨"x", "u32"⟩], some ("u32")⟩, [⟨"doc", "docs"⟩]⟩

/-- A receiver method `fn put(&mut self, k: u32, v: u32)` at version 2. -/
def mPut : TraitItemMethod :=
  ⟨⟨"put", [FnArg.receiver, FnArg.typed ⟨"k", "u32"⟩, FnArg.typed ⟨"v", "u32"⟩], none⟩,
    [⟨"version", "2"⟩]⟩

/-- A two-method interface: `len` at version 1 and `put` at version 2. -/
def wTrait : ItemTrait := ⟨"WitnessInterface", [(1, mLen), (2, mPut)]⟩

/-- The parsed view of `wTrait`. -/
def wRI : RuntimeInterface := ⟨wTrait.items⟩

/-- An interface whose only method `len` takes no receiver, used to exercise the
wasm-only signature shape. -/
def cTrait : ItemTrait := ⟨"CexInterface", [(1, mLen)]⟩

/-- The parsed view of `cTrait`. -/
def cRI : RuntimeInterface := ⟨cTrait.items⟩

/-- A malformed interface: two declarations of `dup` whose versions are not strictly
increasing (2 then 1). -/
def badTrait : ItemTrait :=
  ⟨"BadInterface",
    [(2, ⟨⟨"dup", [], none⟩, []⟩), (1, ⟨⟨"dup", [], none⟩, []⟩)]⟩

/-! ### Basic lemmas about the emitters -/

/-- The wasm-side emitter is infallible. -/
theorem function_no_std_impl_ok (m : TraitItemMethod) :
    function_no_std_impl m = Except.ok (emitted (function_no_std_impl m)) := rfl

/-- The latest-version host forwarder emitter is infallible. -/
theorem function_std_latest_impl_ok (m : TraitItemMethod) (v : Nat) :
    function_std_latest_impl m v = Except.ok (emitted (function_std_latest_impl m v)) := rfl

/-- The versioned host emitter is infallible. -/
theorem function_std_impl_ok (n : String) (m : TraitItemMethod) (v : Nat) (w : Bool) :
    function_std_impl n m v w = Except.ok (emitted (function_std_impl n m v w)) := rfl

/-- The per-method composition emitter is infallible. -/
theorem function_for_method_ok (m : TraitItemMethod) (v : Nat) (w : Bool) :
    function_for_method m v w = Except.ok (emitted (function_for_method m v w)) := by
  cases w <;> rfl

/-- The per-method composition concatenates the host forwarder (dropped when
`wasm_only`) and the wasm marshaller. -/
theorem emitted_function_for_method (m : TraitItemMethod) (v : Nat) (w : Bool) :
    emitted (function_for_method m v w) =
      (if w then [] else emitted (function_std_latest_impl m v))
        ++ emitted (function_no_std_impl m) := by
  cases w <;> rfl

/-- A fold that appends the emission of an infallible emitter succeeds with the
concatenation of all emissions. -/
theorem foldlM_emit {α : Type} (g : α → Except GenError (List EmittedFn))
    (hg : ∀ a, g a = Except.ok (emitted (g a))) (l : List α) :
    ∀ init : List EmittedFn,
      List.foldlM (fun t p => do
          let fns ← g p
          pure (t ++ fns)) init l
        = Except.ok (init ++ l.flatMap (fun a => emitted (g a))) := by
  induction l with
  | nil =>
    intro init
    simp only [List.foldlM_nil, List.flatMap_nil, List.append_nil]
    rfl
  | cons a l ih =>
    intro init
    rw [List.foldlM_cons, hg a]
    have step :
        ((Except.ok (emitted (g a)) >>= fun fns => pure (init ++ fns) :
            Except GenError (List EmittedFn)) >>= fun s =>
          List.foldlM (fun t p => do
            let fns ← g p
            pure (t ++ fns)) s l)
          = List.foldlM (fun t p => do
              let fns ← g p
              pure (t ++ fns)) (init ++ emitted (g a)) l := rfl
    rw [step, ih (init ++ emitted (g a))]
    simp [List.flatMap_cons, List.append_assoc]

/-- On a valid interface, `generate` succeeds and yields exactly the bare functions
followed by the versioned host implementations. -/
theorem generate_ok (t : ItemTrait) (w : Bool) (ri : RuntimeInterface)
    (h : get_runtime_interface t = Except.ok ri) :
    generate t w = Except.ok (generatedList t ri w) := by
  have h1 := foldlM_emit (fun p : Nat × TraitItemMethod => function_for_method p.2 p.1 w)
    (fun p => function_for_method_ok p.2 p.1 w) ri.latest_versions []
  have h2 := foldlM_emit (fun p : Nat × TraitItemMethod => function_std_impl t.ident p.2 p.1 w)
    (fun p => function_std_impl_ok t.ident p.2 p.1 w) ri.all_versions
    (ri.latest_versions.flatMap (fun p => emitted (function_for_method p.2 p.1 w)))
  unfold generate
  rw [h]
  show (ri.latest_versions.foldlM
      (fun t' p => do
        let fns ← function_for_method p.2 p.1 w
        pure (t' ++ fns))
      [] >>= fun start =>
        ri.all_versions.foldlM
          (fun t' p => do
            let fns ← function_std_impl t.ident p.2 p.1 w
            pure (t' ++ fns))
          start) = _
  rw [h1]
  have step2 : (do
      let start ← (Except.ok ([] ++ ri.latest_versions.flatMap
          (fun a => emitted (function_for_method a.2 a.1 w)))
        : Except GenError (List EmittedFn))
      List.foldlM
        (fun t' p => do
          let fns ← function_std_impl t.ident p.2 p.1 w
          pure (t' ++ fns))
        start ri.all_versions)
      = List.foldlM
          (fun t' p => do
            let fns ← function_std_impl t.ident p.2 p.1 w
            pure (t' ++ fns))
          ([] ++ ri.latest_versions.flatMap (fun a => emitted (function_for_method a.2 a.1 w)))
          ri.all_versions := rfl
  rw [step2, List.nil_append, h2]
  rfl

/-- Everything kept by `latestOnly` comes from the underlying list. -/
theorem latestOnly_subset :
    ∀ {l : List (Nat × TraitItemMethod)} {p : Nat × TraitItemMethod},
      p ∈ latestOnly l → p ∈ l := by
  intro l
  induction l with
  | nil => intro p h; simp [latestOnly] at h
  | cons a l ih =>
    intro p h
    by_cases hc : l.any (fun q => q.2.sig.ident == a.2.sig.ident)
    · rw [latestOnly, if_pos hc] at h
      exact List.mem_cons_of_mem _ (ih h)
    · rw [latestOnly, if_neg hc] at h
      rcases List.mem_cons.mp h with h' | h'
      · exact h' ▸ List.mem_cons_self a l
      · exact List.mem_cons_of_mem _ (ih h')

/-- The method names surviving `latestOnly` are pairwise distinct. -/
theorem latestOnly_map_nodup (l : List (Nat × TraitItemMethod)) :
    ((latestOnly l).map (fun p => p.2.sig.ident)).Nodup := by
  induction l with
  | nil => simp [latestOnly]
  | cons a l ih =>
    by_cases hc : l.any (fun q => q.2.sig.ident == a.2.sig.ident)
    · rw [latestOnly, if_pos hc]
      exact ih
    · rw [latestOnly, if_neg hc]
      rw [List.map_cons, List.nodup_cons]
      refine ⟨?_, ih⟩
      intro hmem
      rcases List.mem_map.mp hmem with ⟨q, hq, hqe⟩
      have hq' : q ∈ l := latestOnly_subset hq
      have : l.any (fun q => q.2.sig.ident == a.2.sig.ident) :=
        List.any_eq_true.mpr ⟨q, hq', by simp [hqe]⟩
      exact hc this

/-- In a list whose mapped names are pairwise distinct, exactly one entry carries the
name of a member. -/
theorem countP_name_one {l : List (Nat × TraitItemMethod)}
    (hnd : (l.map (fun p => p.2.sig.ident)).Nodup) {q : Nat × TraitItemMethod}
    (hq : q ∈ l) :
    List.countP (fun p => p.2.sig.ident == q.2.sig.ident) l = 1 := by
  induction l with
  | nil => cases hq
  | cons a l ih =>
    rw [List.map_cons, List.nodup_cons] at hnd
    rcases List.mem_cons.mp hq with h | h
    · subst h
      rw [List.countP_cons]
      have hz : List.countP (fun p => p.2.sig.ident == q.2.sig.ident) l = 0 := by
        rw [List.countP_eq_zero]
        intro p hp hpq
        exact hnd.1 (List.mem_map.mpr ⟨p, hp, by simpa using hpq⟩)
      simp [hz]
    · have hne : ¬(a.2.sig.ident == q.2.sig.ident) := by
        intro hh
        have : a.2.sig.ident ∈ l.map (fun p => p.2.sig.ident) := by
          rw [show a.2.sig.ident = q.2.sig.ident from by simpa using hh]
          exact List.mem_map.mpr ⟨q, h, rfl⟩
        exact hnd.1 this
      rw [List.countP_cons]
      simp only [hne, if_false]
      simpa using ih hnd.2 h

/-- Counting over a flat map, one block per entry. -/
theorem countP_flatMap {α : Type} (f : α → List EmittedFn) (pred : EmittedFn → Bool)
    (g : α → Bool) (hfg : ∀ a, List.countP pred (f a) = if g a then 1 else 0) :
    ∀ l : List α, List.countP pred (l.flatMap f) = List.countP g l := by
  intro l
  induction l with
  | nil => simp
  | cons a l ih =>
    rw [List.flatMap_cons, List.countP_append, hfg a, ih, List.countP_cons]
    omega

/-- If the last element of a list is `a`, then `a` is a member. -/
theorem mem_of_getLast?_eq {α : Type} :
    ∀ {l : List α} {a : α}, l.getLast? = some a → a ∈ l := by
  intro l
  induction l with
  | nil => intro a h; cases h
  | cons b l ih =>
    intro a h
    cases l with
    | nil =>
      simp only [List.getLast?_singleton, Option.some.injEq] at h
      exact h ▸ List.mem_singleton.mpr rfl
    | cons c l' =>
      rw [List.getLast?_cons_cons] at h
      exact List.mem_cons_of_mem _ (ih h)

/-- The dispatch expression built by `generate_call_to_trait` follows the 4-cell
receiver/wasm-only table. -/
theorem generate_call_to_trait_table (n : String) (M : TraitItemMethod) (v : Nat)
    (w : Bool) :
    generate_call_to_trait n M v w =
      (if takes_self_argument M.sig then
        if w then
          CallToTrait.direct ⟨n, create_function_ident_with_version M.sig.ident v,
            "__function_context__", get_function_argument_names M.sig⟩
        else
          CallToTrait.withExternalities ("__externalities__")
            ⟨n, create_function_ident_with_version M.sig.ident v, "__externalities__",
              get_function_argument_names M.sig⟩
            ("`" ++ create_function_ident_with_version M.sig.ident v ++
              "` called outside of an Externalities-provided environment.")
      else
        CallToTrait.qualified
          (if w then ImplTraitRef.functionContext else ImplTraitRef.externalities)
          n (create_function_ident_with_version M.sig.ident v)
          (get_function_argument_names M.sig)) := by
  unfold generate_call_to_trait
  cases h : takes_self_argument M.sig <;> cases w <;> simp [h]

/-- The versioned host implementation emitted for `(v, M)` as a single record. -/
theorem emitted_function_std_impl (n : String) (M : TraitItemMethod) (v : Nat) (w : Bool) :
    emitted (function_std_impl n M v w) =
      [{ cfg := CfgGate.std
         attrs := M.attrs.filter (fun a => !(a.path == "version"))
         isPub := false
         name := create_function_ident_with_version M.sig.ident v
         params := (get_function_arguments M.sig).map
             (fun a => (⟨false, a.name, a.ty⟩ : Param))
           ++ (if w then [functionContextParam] else [])
         output := M.sig.output
         body := FnBody.versioned (create_function_ident_with_version M.sig.ident v)
           (generate_call_to_trait n M v w) }] := rfl

/-- The host forwarder emitted for `M` at latest version `v` as a single record. -/
theorem emitted_function_std_latest_impl (M : TraitItemMethod) (v : Nat) :
    emitted (function_std_latest_impl M v) =
      [{ cfg := CfgGate.std
         attrs := M.attrs.filter (fun a => !(a.path == "version"))
         isPub := true
         name := M.sig.ident
         params := (get_function_arguments M.sig).map
           (fun a => (⟨false, a.name, a.ty⟩ : Param))
         output := M.sig.output
         body := FnBody.forward (create_function_ident_with_version M.sig.ident v)
           (get_function_argument_names M.sig) }] := rfl

/-- The wasm marshaller emitted for `M` as a single record. -/
theorem emitted_function_no_std_impl (M : TraitItemMethod) :
    emitted (function_no_std_impl M) =
      [{ cfg := CfgGate.noStd
         attrs := M.attrs.filter (fun a => !(a.path == "version"))
         isPub := true
         name := M.sig.ident
         params := (get_function_arguments M.sig).map
           (fun a => (⟨false, a.name, a.ty⟩ : Param))
         output := M.sig.output
         body := FnBody.hostCall (create_exchangeable_host_function_ident M.sig.ident)
           (get_function_argument_names M.sig) }] := rfl

/-- C1: for every method `M`, every version `v` in `all_versions`, and both values of
`wasm_only`, the body of the emitted versioned host implementation dispatches exactly
per the 4-cell table: receiver and not wasm-only goes through `with_externalities`
with the exact expect message; receiver and wasm-only calls the trait directly on the
injected context; no receiver calls the trait qualified for `&mut dyn Externalities`
(not wasm-only) or `&mut dyn FunctionContext` (wasm-only). -/
theorem claim_C1 (t : ItemTrait) (ri : RuntimeInterface) (w : Bool) (v : Nat)
    (M : TraitItemMethod) (h : get_runtime_interface t = Except.ok ri)
    (hm : (v, M) ∈ ri.all_versions) :
    ∃ out fn, generate t w = Except.ok out ∧ fn ∈ out ∧
      fn.cfg = CfgGate.std ∧ fn.isPub = false ∧
      fn.name = create_function_ident_with_version M.sig.ident v ∧
      fn.body = FnBody.versioned (create_function_ident_with_version M.sig.ident v)
        (if takes_self_argument M.sig then
          if w then
            CallToTrait.direct ⟨t.ident, create_function_ident_with_version M.sig.ident v,
              "__function_context__", get_function_argument_names M.sig⟩
          else
            CallToTrait.withExternalities ("__externalities__")
              ⟨t.ident, create_function_ident_with_version M.sig.ident v,
                "__externalities__", get_function_argument_names M.sig⟩
              ("`" ++ create_function_ident_with_version M.sig.ident v ++
                "` called outside of an Externalities-provided environment.")
        else
          CallToTrait.qualified
            (if w then ImplTraitRef.functionContext else ImplTraitRef.externalities)
            t.ident (create_function_ident_with_version M.sig.ident v)
            (get_function_argument_names M.sig)) := by
  refine ⟨generatedList t ri w,
    { cfg := CfgGate.std
      attrs := M.attrs.filter (fun a => !(a.path == "version"))
      isPub := false
      name := create_function_ident_with_version M.sig.ident v
      params := (get_function_arguments M.sig).map
          (fun a => (⟨false, a.name, a.ty⟩ : Param))
        ++ (if w then [functionContextParam] else [])
      output := M.sig.output
      body := FnBody.versioned (create_function_ident_with_version M.sig.ident v)
        (generate_call_to_trait t.ident M v w) },
    generate_ok t w ri h, ?_, rfl, rfl, rfl, ?_⟩
  · refine List.mem_append_right _ (List.mem_flatMap.mpr ⟨(v, M), hm, ?_⟩)
    rw [emitted_function_std_impl]
    exact List.mem_singleton.mpr rfl
  · simp only [generate_call_to_trait_table]

/-- Witness for C1 at the concrete interface `wTrait`, method `put` version 2. -/
theorem claim_C1_witness :
    ∃ out fn, generate wTrait false = Except.ok out ∧ fn ∈ out ∧
      fn.cfg = CfgGate.std ∧ fn.isPub = false ∧
      fn.name = create_function_ident_with_version mPut.sig.ident 2 ∧
      fn.body = FnBody.versioned (create_function_ident_with_version mPut.sig.ident 2)
        (if takes_self_argument mPut.sig then
          if false then
            CallToTrait.direct ⟨wTrait.ident,
              create_function_ident_with_version mPut.sig.ident 2,
              "__function_context__", get_function_argument_names mPut.sig⟩
          else
            CallToTrait.withExternalities ("__externalities__")
              ⟨wTrait.ident, create_function_ident_with_version mPut.sig.ident 2,
                "__externalities__", get_function_argument_names mPut.sig⟩
              ("`" ++ create_function_ident_with_version mPut.sig.ident 2 ++
                "` called outside of an Externalities-provided environment.")
        else
          CallToTrait.qualified
            (if false then ImplTraitRef.functionContext else ImplTraitRef.externalities)
            wTrait.ident (create_function_ident_with_version mPut.sig.ident 2)
            (get_function_argument_names mPut.sig)) :=
  claim_C1 wTrait wRI false 2 mPut (by rfl) (by decide)

/-- Counterexample to C2 as stated: on the interface `cTrait`, whose method `len`
takes no receiver, with `wasm_only = true`, the emitted versioned host implementation
`len_version_1` still ends in the injected trailing function-context parameter, so
the parameter does not appear only when the method takes a receiver. -/
theorem claim_C2_counterexample :
    takes_self_argument mLen.sig = false ∧
    (emitted (generate cTrait true)).any
      (fun fn => fn.name == "len_version_1" &&
        fn.params.getLast? == some functionContextParam) = true :=
  ⟨rfl, rfl⟩

/-- C2 amended: for every method `M` and every version `v` in `all_versions`, the
signature of the emitted versioned host implementation ends in the
generator-introduced trailing function-context parameter if and only if `wasm_only`
is true — independently of whether the method takes a receiver. -/
theorem claim_C2_amended (t : ItemTrait) (ri : RuntimeInterface) (w : Bool) (v : Nat)
    (M : TraitItemMethod) (h : get_runtime_interface t = Except.ok ri)
    (hm : (v, M) ∈ ri.all_versions) :
    ∃ out fn, generate t w = Except.ok out ∧ fn ∈ out ∧
      fn.cfg = CfgGate.std ∧ fn.isPub = false ∧
      fn.name = create_function_ident_with_version M.sig.ident v ∧
      fn.params = (get_function_arguments M.sig).map
          (fun a => (⟨false, a.name, a.ty⟩ : Param))
        ++ (if w then [functionContextParam] else []) ∧
      (fn.params.getLast? = some functionContextParam ↔ w = true) := by
  refine ⟨generatedList t ri w,
    { cfg := CfgGate.std
      attrs := M.attrs.filter (fun a => !(a.path == "version"))
      isPub := false
      name := create_function_ident_with_version M.sig.ident v
      params := (get_function_arguments M.sig).map
          (fun a => (⟨false, a.name, a.ty⟩ : Param))
        ++ (if w then [functionContextParam] else [])
      output := M.sig.output
      body := FnBody.versioned (create_function_ident_with_version M.sig.ident v)
        (generate_call_to_trait t.ident M v w) },
    generate_ok t w ri h, ?_, rfl, rfl, rfl, rfl, ?_⟩
  · refine List.mem_append_right _ (List.mem_flatMap.mpr ⟨(v, M), hm, ?_⟩)
    rw [emitted_function_std_impl]
    exact List.mem_singleton.mpr rfl
  · cases w with
    | true =>
      simp only [if_true, List.getLast?_concat]
    | false =>
      simp only [Bool.false_eq_true, if_false, List.append_nil, iff_false]
      intro hlast
      rw [List.getLast?_map] at hlast
      cases harg : (get_function_arguments M.sig).getLast? with
      | none => rw [harg] at hlast; cases hlast
      | some a =>
        rw [harg] at hlast
        simp only [Option.map_some'] at hlast
        have h2 : (⟨false, a.name, a.ty⟩ : Param) = functionContextParam :=
          Option.some.inj hlast
        have h3 := congrArg Param.isMut h2
        simp [functionContextParam] at h3

/-- Witness for the amended C2 at the concrete interface `cTrait`, method `len`
(no receiver), `wasm_only = true`. -/
theorem claim_C2_witness :
    ∃ out fn, generate cTrait true = Except.ok out ∧ fn ∈ out ∧
      fn.cfg = CfgGate.std ∧ fn.isPub = false ∧
      fn.name = create_function_ident_with_version mLen.sig.ident 1 ∧
      fn.params = (get_function_arguments mLen.sig).map
          (fun a => (⟨false, a.name, a.ty⟩ : Param))
        ++ (if true then [functionContextParam] else []) ∧
      (fn.params.getLast? = some functionContextParam ↔ true = true) :=
  claim_C2_amended cTrait cRI true 1 mLen (by rfl) (by decide)

/-- Counting with an always-false predicate yields zero. -/
theorem countP_always_false {α : Type} (l : List α) :
    List.countP (fun _ => false) l = 0 := by simp

/-- Per-method block: the wasm-gated public functions named `nm` in the bare block
of `M'` number one exactly when `M'` is named `nm`. -/
theorem countP_no_std_block (M' : TraitItemMethod) (v : Nat) (w : Bool) (nm : String) :
    List.countP (fun fn => fn.cfg == CfgGate.noStd && fn.isPub && fn.name == nm)
      (emitted (function_for_method M' v w)) = if M'.sig.ident == nm then 1 else 0 := by
  rw [emitted_function_for_method, List.countP_append, emitted_function_no_std_impl]
  cases w <;>
    simp [emitted_function_std_latest_impl, List.countP_cons]

/-- Per-method block: the host-gated public functions named `nm` in the bare block of
`M'` number one exactly when `M'` is named `nm` and the interface is not wasm-only. -/
theorem countP_std_latest_block (M' : TraitItemMethod) (v : Nat) (w : Bool) (nm : String) :
    List.countP (fun fn => fn.cfg == CfgGate.std && fn.isPub && fn.name == nm)
      (emitted (function_for_method M' v w)) =
      if w then 0 else (if M'.sig.ident == nm then 1 else 0) := by
  rw [emitted_function_for_method, List.countP_append, emitted_function_no_std_impl]
  cases w <;>
    simp [emitted_function_std_latest_impl, List.countP_cons]

/-- Versioned host implementations are never public, so they never count as bare
functions. -/
theorem countP_pub_std_impl (c : CfgGate) (n : String) (M' : TraitItemMethod) (v : Nat)
    (w : Bool) (nm : String) :
    List.countP (fun fn => fn.cfg == c && fn.isPub && fn.name == nm)
      (emitted (function_std_impl n M' v w)) = 0 := by
  rw [emitted_function_std_impl]
  simp [List.countP_cons]

/-- C3: for every method `M` in `latest_versions` and both values of `wasm_only`, the
output of `generate` contains exactly one wasm-gated public bare function named `M`
regardless of `wasm_only`, and exactly one host-gated public bare function named `M`
iff `wasm_only` is false. -/
theorem claim_C3 (t : ItemTrait) (ri : RuntimeInterface) (w : Bool) (L : Nat)
    (M : TraitItemMethod) (h : get_runtime_interface t = Except.ok ri)
    (hm : (L, M) ∈ ri.latest_versions) :
    ∃ out, generate t w = Except.ok out ∧
      List.countP
        (fun fn => fn.cfg == CfgGate.noStd && fn.isPub && fn.name == M.sig.ident)
        out = 1 ∧
      List.countP
        (fun fn => fn.cfg == CfgGate.std && fn.isPub && fn.name == M.sig.ident)
        out = (if w then 0 else 1) := by
  refine ⟨generatedList t ri w, generate_ok t w ri h, ?_, ?_⟩
  · unfold generatedList
    rw [List.countP_append,
      countP_flatMap (fun p : Nat × TraitItemMethod => emitted (function_for_method p.2 p.1 w))
        (fun fn => fn.cfg == CfgGate.noStd && fn.isPub && fn.name == M.sig.ident)
        (fun p => p.2.sig.ident == M.sig.ident)
        (fun p => countP_no_std_block p.2 p.1 w M.sig.ident),
      countP_flatMap
        (fun p : Nat × TraitItemMethod => emitted (function_std_impl t.ident p.2 p.1 w))
        (fun fn => fn.cfg == CfgGate.noStd && fn.isPub && fn.name == M.sig.ident)
        (fun _ => false)
        (fun p => by
          rw [countP_pub_std_impl CfgGate.noStd t.ident p.2 p.1 w M.sig.ident]
          simp),
      countP_always_false, Nat.add_zero]
    exact countP_name_one (latestOnly_map_nodup ri.items) hm
  · unfold generatedList
    rw [List.countP_append,
      countP_flatMap
        (fun p : Nat × TraitItemMethod => emitted (function_std_impl t.ident p.2 p.1 w))
        (fun fn => fn.cfg == CfgGate.std && fn.isPub && fn.name == M.sig.ident)
        (fun _ => false)
        (fun p => by
          rw [countP_pub_std_impl CfgGate.std t.ident p.2 p.1 w M.sig.ident]
          simp),
      countP_always_false, Nat.add_zero]
    cases w with
    | true =>
      rw [countP_flatMap
        (fun p : Nat × TraitItemMethod => emitted (function_for_method p.2 p.1 true))
        (fun fn => fn.cfg == CfgGate.std && fn.isPub && fn.name == M.sig.ident)
        (fun _ => false)
        (fun p => by rw [countP_std_latest_block p.2 p.1 true M.sig.ident]; simp),
        countP_always_false]
      rfl
    | false =>
      rw [countP_flatMap
        (fun p : Nat × TraitItemMethod => emitted (function_for_method p.2 p.1 false))
        (fun fn => fn.cfg == CfgGate.std && fn.isPub && fn.name == M.sig.ident)
        (fun p => p.2.sig.ident == M.sig.ident)
        (fun p => by rw [countP_std_latest_block p.2 p.1 false M.sig.ident]; simp),
        if_neg (by simp : ¬(false = true))]
      exact countP_name_one (latestOnly_map_nodup ri.items) hm

/-- Witness for C3 at the concrete interface `wTrait`, method `len`, `wasm_only =
false`. -/
theorem claim_C3_witness :
    ∃ out, generate wTrait false = Except.ok out ∧
      List.countP
        (fun fn => fn.cfg == CfgGate.noStd && fn.isPub && fn.name == mLen.sig.ident)
        out = 1 ∧
      List.countP
        (fun fn => fn.cfg == CfgGate.std && fn.isPub && fn.name == mLen.sig.ident)
        out = (if false then 0 else 1) :=
  claim_C3 wTrait wRI false 1 mLen (by rfl) (by decide)

/-- C4: for every method `M` with latest version `L`, when `wasm_only` is false, the
emitted host-gated bare function named `M` reproduces the declared signature and its
body is a single call to `versioned_name(M, L)` with exactly the declared argument
names in order; moreover every host-gated public function named `M` in the output has
this shape. -/
theorem claim_C4 (t : ItemTrait) (ri : RuntimeInterface) (L : Nat) (M : TraitItemMethod)
    (h : get_runtime_interface t = Except.ok ri) (hm : (L, M) ∈ ri.latest_versions) :
    ∃ out, generate t false = Except.ok out ∧
      (∃ fn ∈ out, fn.cfg = CfgGate.std ∧ fn.isPub = true ∧ fn.name = M.sig.ident ∧
        fn.params = (get_function_arguments M.sig).map
          (fun a => (⟨false, a.name, a.ty⟩ : Param)) ∧
        fn.output = M.sig.output ∧
        fn.body = FnBody.forward (create_function_ident_with_version M.sig.ident L)
          (get_function_argument_names M.sig)) ∧
      (∀ fn ∈ out, fn.cfg = CfgGate.std → fn.isPub = true → fn.name = M.sig.ident →
        fn.params = (get_function_arguments M.sig).map
          (fun a => (⟨false, a.name, a.ty⟩ : Param)) ∧
        fn.output = M.sig.output ∧
        fn.body = FnBody.forward (create_function_ident_with_version M.sig.ident L)
          (get_function_argument_names M.sig)) := by
  refine ⟨generatedList t ri false, generate_ok t false ri h, ?_, ?_⟩
  · refine ⟨
      { cfg := CfgGate.std
        attrs := M.attrs.filter (fun a => !(a.path == "version"))
        isPub := true
        name := M.sig.ident
        params := (get_function_arguments M.sig).map
          (fun a => (⟨false, a.name, a.ty⟩ : Param))
        output := M.sig.output
        body := FnBody.forward (create_function_ident_with_version M.sig.ident L)
          (get_function_argument_names M.sig) },
      ?_, rfl, rfl, rfl, rfl, rfl, rfl⟩
    refine List.mem_append_left _ (List.mem_flatMap.mpr ⟨(L, M), hm, ?_⟩)
    rw [emitted_function_for_method, if_neg (by simp), emitted_function_std_latest_impl]
    exact List.mem_append_left _ (List.mem_singleton.mpr rfl)
  · intro fn hfn hcfg hpub hname
    rcases List.mem_append.mp hfn with hA | hB
    · obtain ⟨p, hp, hfp⟩ := List.mem_flatMap.mp hA
      rw [emitted_function_for_method, if_neg (by simp),
        emitted_function_std_latest_impl, emitted_function_no_std_impl] at hfp
      rcases List.mem_append.mp hfp with hL | hN
      · have hfneq := List.mem_singleton.mp hL
        subst hfneq
        have hpM : p = (L, M) :=
          List.inj_on_of_nodup_map (latestOnly_map_nodup ri.items) hp hm hname
        rw [hpM]
        exact ⟨rfl, rfl, rfl⟩
      · have hfneq := List.mem_singleton.mp hN
        subst hfneq
        cases hcfg
    · obtain ⟨p, hp, hfp⟩ := List.mem_flatMap.mp hB
      rw [emitted_function_std_impl] at hfp
      have hfneq := List.mem_singleton.mp hfp
      subst hfneq
      cases hpub

/-- Witness for C4 at the concrete interface `wTrait`, method `len`, latest version 1. -/
theorem claim_C4_witness :
    ∃ out, generate wTrait false = Except.ok out ∧
      (∃ fn ∈ out, fn.cfg = CfgGate.std ∧ fn.isPub = true ∧ fn.name = mLen.sig.ident ∧
        fn.params = (get_function_arguments mLen.sig).map
          (fun a => (⟨false, a.name, a.ty⟩ : Param)) ∧
        fn.output = mLen.sig.output ∧
        fn.body = FnBody.forward (create_function_ident_with_version mLen.sig.ident 1)
          (get_function_argument_names mLen.sig)) ∧
      (∀ fn ∈ out, fn.cfg = CfgGate.std → fn.isPub = true → fn.name = mLen.sig.ident →
        fn.params = (get_function_arguments mLen.sig).map
          (fun a => (⟨false, a.name, a.ty⟩ : Param)) ∧
        fn.output = mLen.sig.output ∧
        fn.body = FnBody.forward (create_function_ident_with_version mLen.sig.ident 1)
          (get_function_argument_names mLen.sig)) :=
  claim_C4 wTrait wRI 1 mLen (by rfl) (by decide)

/-- C5: for every method `M` (in `latest_versions`) and both values of `wasm_only`,
the emitted wasm-gated bare function named `M` mirrors the declared signature and its
body invokes the exchangeable host-function handle `symbol_for(M)` with exactly the
declared argument names in order; moreover every wasm-gated function named `M` in the
output has this shape. -/
theorem claim_C5 (t : ItemTrait) (ri : RuntimeInterface) (w : Bool) (L : Nat)
    (M : TraitItemMethod) (h : get_runtime_interface t = Except.ok ri)
    (hm : (L, M) ∈ ri.latest_versions) :
    ∃ out, generate t w = Except.ok out ∧
      (∃ fn ∈ out, fn.cfg = CfgGate.noStd ∧ fn.isPub = true ∧ fn.name = M.sig.ident ∧
        fn.params = (get_function_arguments M.sig).map
          (fun a => (⟨false, a.name, a.ty⟩ : Param)) ∧
        fn.output = M.sig.output ∧
        fn.body = FnBody.hostCall (create_exchangeable_host_function_ident M.sig.ident)
          (get_function_argument_names M.sig)) ∧
      (∀ fn ∈ out, fn.cfg = CfgGate.noStd → fn.name = M.sig.ident →
        fn.isPub = true ∧
        fn.params = (get_function_arguments M.sig).map
          (fun a => (⟨false, a.name, a.ty⟩ : Param)) ∧
        fn.output = M.sig.output ∧
        fn.body = FnBody.hostCall (create_exchangeable_host_function_ident M.sig.ident)
          (get_function_argument_names M.sig)) := by
  refine ⟨generatedList t ri w, generate_ok t w ri h, ?_, ?_⟩
  · refine ⟨
      { cfg := CfgGate.noStd
        attrs := M.attrs.filter (fun a => !(a.path == "version"))
        isPub := true
        name := M.sig.ident
        params := (get_function_arguments M.sig).map
          (fun a => (⟨false, a.name, a.ty⟩ : Param))
        output := M.sig.output
        body := FnBody.hostCall (create_exchangeable_host_function_ident M.sig.ident)
          (get_function_argument_names M.sig) },
      ?_, rfl, rfl, rfl, rfl, rfl, rfl⟩
    refine List.mem_append_left _ (List.mem_flatMap.mpr ⟨(L, M), hm, ?_⟩)
    rw [emitted_function_for_method, emitted_function_no_std_impl]
    exact List.mem_append_right _ (List.mem_singleton.mpr rfl)
  · intro fn hfn hcfg hname
    rcases List.mem_append.mp hfn with hA | hB
    · obtain ⟨p, hp, hfp⟩ := List.mem_flatMap.mp hA
      rw [emitted_function_for_method, emitted_function_no_std_impl] at hfp
      rcases List.mem_append.mp hfp with hL | hN
      · rcases hw : w with _ | _
        · rw [hw, if_neg (by simp), emitted_function_std_latest_impl] at hL
          have hfneq := List.mem_singleton.mp hL
          subst hfneq
          cases hcfg
        · rw [hw, if_pos rfl] at hL
          cases hL
      · have hfneq := List.mem_singleton.mp hN
        subst hfneq
        have hpM : p = (L, M) :=
          List.inj_on_of_nodup_map (latestOnly_map_nodup ri.items) hp hm hname
        rw [hpM]
        exact ⟨rfl, rfl, rfl, rfl⟩
    · obtain ⟨p, hp, hfp⟩ := List.mem_flatMap.mp hB
      rw [emitted_function_std_impl] at hfp
      have hfneq := List.mem_singleton.mp hfp
      subst hfneq
      cases hcfg

/-- Witness for C5 at the concrete interface `wTrait`, method `put`, `wasm_only =
true`. -/
theorem claim_C5_witness :
    ∃ out, generate wTrait true = Except.ok out ∧
      (∃ fn ∈ out, fn.cfg = CfgGate.noStd ∧ fn.isPub = true ∧ fn.name = mPut.sig.ident ∧
        fn.params = (get_function_arguments mPut.sig).map
          (fun a => (⟨false, a.name, a.ty⟩ : Param)) ∧
        fn.output = mPut.sig.output ∧
        fn.body = FnBody.hostCall (create_exchangeable_host_function_ident mPut.sig.ident)
          (get_function_argument_names mPut.sig)) ∧
      (∀ fn ∈ out, fn.cfg = CfgGate.noStd → fn.name = mPut.sig.ident →
        fn.isPub = true ∧
        fn.params = (get_function_arguments mPut.sig).map
          (fun a => (⟨false, a.name, a.ty⟩ : Param)) ∧
        fn.output = mPut.sig.output ∧
        fn.body = FnBody.hostCall (create_exchangeable_host_function_ident mPut.sig.ident)
          (get_function_argument_names mPut.sig)) :=
  claim_C5 wTrait wRI true 2 mPut (by rfl) (by decide)

/-- C6: every emitted function carries exactly the attribute list of its own source
method with every `version` attribute removed and everything else (including unknown
attributes) preserved verbatim.  The theorem characterises the origin completely:
every function in the output is one of the three records emitted from a specific
`(version, method)` entry — the host-latest forwarder or the wasm marshaller of a
`latest_versions` entry, or the versioned host implementation of an `all_versions`
entry — and its attribute list is that very method's list filtered by
`path != version`. -/
theorem claim_C6 (t : ItemTrait) (ri : RuntimeInterface) (w : Bool)
    (h : get_runtime_interface t = Except.ok ri) :
    ∃ out, generate t w = Except.ok out ∧
      ∀ fn ∈ out, ∃ p : Nat × TraitItemMethod,
        ((p ∈ ri.latest_versions ∧ w = false ∧ fn =
          { cfg := CfgGate.std
            attrs := p.2.attrs.filter (fun a => !(a.path == "version"))
            isPub := true
            name := p.2.sig.ident
            params := (get_function_arguments p.2.sig).map
              (fun a => (⟨false, a.name, a.ty⟩ : Param))
            output := p.2.sig.output
            body := FnBody.forward (create_function_ident_with_version p.2.sig.ident p.1)
              (get_function_argument_names p.2.sig) }) ∨
         (p ∈ ri.latest_versions ∧ fn =
          { cfg := CfgGate.noStd
            attrs := p.2.attrs.filter (fun a => !(a.path == "version"))
            isPub := true
            name := p.2.sig.ident
            params := (get_function_arguments p.2.sig).map
              (fun a => (⟨false, a.name, a.ty⟩ : Param))
            output := p.2.sig.output
            body := FnBody.hostCall (create_exchangeable_host_function_ident p.2.sig.ident)
              (get_function_argument_names p.2.sig) }) ∨
         (p ∈ ri.all_versions ∧ fn =
          { cfg := CfgGate.std
            attrs := p.2.attrs.filter (fun a => !(a.path == "version"))
            isPub := false
            name := create_function_ident_with_version p.2.sig.ident p.1
            params := (get_function_arguments p.2.sig).map
                (fun a => (⟨false, a.name, a.ty⟩ : Param))
              ++ (if w then [functionContextParam] else [])
            output := p.2.sig.output
            body := FnBody.versioned (create_function_ident_with_version p.2.sig.ident p.1)
              (generate_call_to_trait t.ident p.2 p.1 w) })) ∧
        fn.attrs = p.2.attrs.filter (fun a => !(a.path == "version")) := by
  refine ⟨generatedList t ri w, generate_ok t w ri h, ?_⟩
  intro fn hfn
  rcases List.mem_append.mp hfn with hA | hB
  · obtain ⟨p, hp, hfp⟩ := List.mem_flatMap.mp hA
    rw [emitted_function_for_method, emitted_function_no_std_impl] at hfp
    rcases List.mem_append.mp hfp with hL | hN
    · rcases hw : w with _ | _
      · rw [hw, if_neg (by simp), emitted_function_std_latest_impl] at hL
        have hfneq := List.mem_singleton.mp hL
        subst hfneq
        exact ⟨p, Or.inl ⟨hp, rfl, rfl⟩, rfl⟩
      · rw [hw, if_pos rfl] at hL
        cases hL
    · have hfneq := List.mem_singleton.mp hN
      subst hfneq
      exact ⟨p, Or.inr (Or.inl ⟨hp, rfl⟩), rfl⟩
  · obtain ⟨p, hp, hfp⟩ := List.mem_flatMap.mp hB
    rw [emitted_function_std_impl] at hfp
    have hfneq := List.mem_singleton.mp hfp
    subst hfneq
    exact ⟨p, Or.inr (Or.inr ⟨hp, rfl⟩), rfl⟩

/-- Witness for C6 at the concrete interface `wTrait`, `wasm_only = false`. -/
theorem claim_C6_witness :
    ∃ out, generate wTrait false = Except.ok out ∧
      ∀ fn ∈ out, ∃ p : Nat × TraitItemMethod,
        ((p ∈ wRI.latest_versions ∧ false = false ∧ fn =
          { cfg := CfgGate.std
            attrs := p.2.attrs.filter (fun a => !(a.path == "version"))
            isPub := true
            name := p.2.sig.ident
            params := (get_function_arguments p.2.sig).map
              (fun a => (⟨false, a.name, a.ty⟩ : Param))
            output := p.2.sig.output
            body := FnBody.forward (create_function_ident_with_version p.2.sig.ident p.1)
              (get_function_argument_names p.2.sig) }) ∨
         (p ∈ wRI.latest_versions ∧ fn =
          { cfg := CfgGate.noStd
            attrs := p.2.attrs.filter (fun a => !(a.path == "version"))
            isPub := true
            name := p.2.sig.ident
            params := (get_function_arguments p.2.sig).map
              (fun a => (⟨false, a.name, a.ty⟩ : Param))
            output := p.2.sig.output
            body := FnBody.hostCall (create_exchangeable_host_function_ident p.2.sig.ident)
              (get_function_argument_names p.2.sig) }) ∨
         (p ∈ wRI.all_versions ∧ fn =
          { cfg := CfgGate.std
            attrs := p.2.attrs.filter (fun a => !(a.path == "version"))
            isPub := false
            name := create_function_ident_with_version p.2.sig.ident p.1
            params := (get_function_arguments p.2.sig).map
                (fun a => (⟨false, a.name, a.ty⟩ : Param))
              ++ (if false then [functionContextParam] else [])
            output := p.2.sig.output
            body := FnBody.versioned (create_function_ident_with_version p.2.sig.ident p.1)
              (generate_call_to_trait wTrait.ident p.2 p.1 false) })) ∧
        fn.attrs = p.2.attrs.filter (fun a => !(a.path == "version")) :=
  claim_C6 wTrait wRI false (by rfl)

/-- C7: the tracing-span literal opening every versioned host body equals the string
form of the versioned name: every emitted function with a versioned body has its own
name as the span literal, and for every `(v, M)` in `all_versions` such a function
named `versioned_name(M, v)` is emitted. -/
theorem claim_C7 (t : ItemTrait) (ri : RuntimeInterface) (w : Bool)
    (h : get_runtime_interface t = Except.ok ri) :
    ∃ out, generate t w = Except.ok out ∧
      (∀ fn ∈ out, ∀ s c, fn.body = FnBody.versioned s c → s = fn.name) ∧
      (∀ p ∈ ri.all_versions, ∃ fn ∈ out, fn.cfg = CfgGate.std ∧
        fn.name = create_function_ident_with_version p.2.sig.ident p.1 ∧
        ∃ c, fn.body =
          FnBody.versioned (create_function_ident_with_version p.2.sig.ident p.1) c) := by
  refine ⟨generatedList t ri w, generate_ok t w ri h, ?_, ?_⟩
  · intro fn hfn s c hbody
    rcases List.mem_append.mp hfn with hA | hB
    · obtain ⟨p, hp, hfp⟩ := List.mem_flatMap.mp hA
      rw [emitted_function_for_method, emitted_function_no_std_impl] at hfp
      rcases List.mem_append.mp hfp with hL | hN
      · rcases hw : w with _ | _
        · rw [hw, if_neg (by simp), emitted_function_std_latest_impl] at hL
          have hfneq := List.mem_singleton.mp hL
          subst hfneq
          simp at hbody
        · rw [hw, if_pos rfl] at hL
          cases hL
      · have hfneq := List.mem_singleton.mp hN
        subst hfneq
        simp at hbody
    · obtain ⟨p, hp, hfp⟩ := List.mem_flatMap.mp hB
      rw [emitted_function_std_impl] at hfp
      have hfneq := List.mem_singleton.mp hfp
      subst hfneq
      exact ((FnBody.versioned.inj hbody).1).symm
  · intro p hp
    refine ⟨
      { cfg := CfgGate.std
        attrs := p.2.attrs.filter (fun a => !(a.path == "version"))
        isPub := false
        name := create_function_ident_with_version p.2.sig.ident p.1
        params := (get_function_arguments p.2.sig).map
            (fun a => (⟨false, a.name, a.ty⟩ : Param))
          ++ (if w then [functionContextParam] else [])
        output := p.2.sig.output
        body := FnBody.versioned (create_function_ident_with_version p.2.sig.ident p.1)
          (generate_call_to_trait t.ident p.2 p.1 w) },
      ?_, rfl, rfl, generate_call_to_trait t.ident p.2 p.1 w, rfl⟩
    refine List.mem_append_right _ (List.mem_flatMap.mpr ⟨p, hp, ?_⟩)
    rw [emitted_function_std_impl]
    exact List.mem_singleton.mpr rfl

/-- Witness for C7 at the concrete interface `wTrait`, `wasm_only = true`. -/
theorem claim_C7_witness :
    ∃ out, generate wTrait true = Except.ok out ∧
      (∀ fn ∈ out, ∀ s c, fn.body = FnBody.versioned s c → s = fn.name) ∧
      (∀ p ∈ wRI.all_versions, ∃ fn ∈ out, fn.cfg = CfgGate.std ∧
        fn.name = create_function_ident_with_version p.2.sig.ident p.1 ∧
        ∃ c, fn.body =
          FnBody.versioned (create_function_ident_with_version p.2.sig.ident p.1) c) :=
  claim_C7 wTrait wRI true (by rfl)

/-- C8: generation fails exactly when the upstream parser rejects the trait, and then
the first error is propagated unchanged — no partial token stream is returned and no
later method contributes anything. -/
theorem claim_C8 (t : ItemTrait) (w : Bool) (e : GenError) :
    get_runtime_interface t = Except.error e ↔ generate t w = Except.error e := by
  constructor
  · intro h
    unfold generate
    rw [h]
    rfl
  · intro h
    cases hg : get_runtime_interface t with
    | ok ri =>
      rw [generate_ok t w ri hg] at h
      cases h
    | error e2 =>
      have he : generate t w = Except.error e2 := by
        unfold generate
        rw [hg]
        rfl
      have h3 : e2 = e := Except.error.inj (he.symm.trans h)
      rw [← h3]

/-- C9: the sub-emitters are infallible, so on every trait accepted by
`get_runtime_interface`, `generate` succeeds; the parser is the only failure source. -/
theorem claim_C9 (t : ItemTrait) (ri : RuntimeInterface) (w : Bool)
    (h : get_runtime_interface t = Except.ok ri) :
    (∃ out, generate t w = Except.ok out) ∧
    (∀ m v, ∃ l, function_for_method m v w = Except.ok l) ∧
    (∀ m, ∃ l, function_no_std_impl m = Except.ok l) ∧
    (∀ m v, ∃ l, function_std_latest_impl m v = Except.ok l) ∧
    (∀ n m v, ∃ l, function_std_impl n m v w = Except.ok l) :=
  ⟨⟨_, generate_ok t w ri h⟩,
   fun m v => ⟨_, function_for_method_ok m v w⟩,
   fun m => ⟨_, function_no_std_impl_ok m⟩,
   fun m v => ⟨_, function_std_latest_impl_ok m v⟩,
   fun n m v => ⟨_, function_std_impl_ok n m v w⟩⟩

/-- Witness for C9 at the concrete interface `wTrait`, `wasm_only = false`. -/
theorem claim_C9_witness :
    (∃ out, generate wTrait false = Except.ok out) ∧
    (∀ m v, ∃ l, function_for_method m v false = Except.ok l) ∧
    (∀ m, ∃ l, function_no_std_impl m = Except.ok l) ∧
    (∀ m v, ∃ l, function_std_latest_impl m v = Except.ok l) ∧
    (∀ n m v, ∃ l, function_std_impl n m v false = Except.ok l) :=
  claim_C9 wTrait wRI false (by rfl)

/-- The emitted versioned signature ends in the injected context parameter exactly
when the interface is wasm-only. -/
theorem params_getLast_iff (M : TraitItemMethod) (w : Bool) :
    (((get_function_arguments M.sig).map (fun a => (⟨false, a.name, a.ty⟩ : Param))
        ++ (if w then [functionContextParam] else [])).getLast?
      = some functionContextParam) ↔ w = true := by
  cases w with
  | true =>
    simp only [if_true, List.getLast?_concat]
  | false =>
    simp only [Bool.false_eq_true, if_false, List.append_nil, iff_false]
    intro hlast
    rw [List.getLast?_map] at hlast
    cases harg : (get_function_arguments M.sig).getLast? with
    | none => rw [harg] at hlast; cases hlast
    | some a =>
      rw [harg] at hlast
      simp only [Option.map_some'] at hlast
      have h2 : (⟨false, a.name, a.ty⟩ : Param) = functionContextParam :=
        Option.some.inj hlast
      have h3 := congrArg Param.isMut h2
      simp [functionContextParam] at h3

/-- C10: the versioned host implementation's signature ends in
`mut __function_context__: &mut dyn FunctionContext` iff `wasm_only` is true,
independently of the receiver; and when `wasm_only` is true and the method takes no
receiver, the parameter is present but unreferenced — the body dispatches through
`<&mut dyn FunctionContext as Trait>::method_v(args…)`. -/
theorem claim_C10 (t : ItemTrait) (ri : RuntimeInterface) (w : Bool) (v : Nat)
    (M : TraitItemMethod) (h : get_runtime_interface t = Except.ok ri)
    (hm : (v, M) ∈ ri.all_versions)
    (hname : ("__function_context__") ∉ get_function_argument_names M.sig) :
    ∃ out fn, generate t w = Except.ok out ∧ fn ∈ out ∧
      fn.cfg = CfgGate.std ∧
      fn.name = create_function_ident_with_version M.sig.ident v ∧
      fn.params = (get_function_arguments M.sig).map
          (fun a => (⟨false, a.name, a.ty⟩ : Param))
        ++ (if w then [functionContextParam] else []) ∧
      (fn.params.getLast? = some functionContextParam ↔ w = true) ∧
      (w = true → takes_self_argument M.sig = false →
        fn.body = FnBody.versioned (create_function_ident_with_version M.sig.ident v)
          (CallToTrait.qualified ImplTraitRef.functionContext t.ident
            (create_function_ident_with_version M.sig.ident v)
            (get_function_argument_names M.sig)) ∧
        (∀ c, fn.body =
            FnBody.versioned (create_function_ident_with_version M.sig.ident v) c →
          mentionsIdent ("__function_context__") c = false)) := by
  refine ⟨generatedList t ri w,
    { cfg := CfgGate.std
      attrs := M.attrs.filter (fun a => !(a.path == "version"))
      isPub := false
      name := create_function_ident_with_version M.sig.ident v
      params := (get_function_arguments M.sig).map
          (fun a => (⟨false, a.name, a.ty⟩ : Param))
        ++ (if w then [functionContextParam] else [])
      output := M.sig.output
      body := FnBody.versioned (create_function_ident_with_version M.sig.ident v)
        (generate_call_to_trait t.ident M v w) },
    generate_ok t w ri h, ?_, rfl, rfl, rfl, params_getLast_iff M w, ?_⟩
  · refine List.mem_append_right _ (List.mem_flatMap.mpr ⟨(v, M), hm, ?_⟩)
    rw [emitted_function_std_impl]
    exact List.mem_singleton.mpr rfl
  · intro hw htsa
    subst hw
    have hg : generate_call_to_trait t.ident M v true =
        CallToTrait.qualified ImplTraitRef.functionContext t.ident
          (create_function_ident_with_version M.sig.ident v)
          (get_function_argument_names M.sig) := by
      rw [generate_call_to_trait_table, htsa]
      simp
    refine ⟨by rw [hg], ?_⟩
    intro c hc
    have hceq : c = generate_call_to_trait t.ident M v true :=
      ((FnBody.versioned.inj hc).2).symm
    subst hceq
    rw [hg]
    show (get_function_argument_names M.sig).contains ("__function_context__") = false
    cases hcont : (get_function_argument_names M.sig).contains ("__function_context__") with
    | false => rfl
    | true => exact absurd (List.mem_of_elem_eq_true hcont) hname

/-- Witness for C10 at the concrete interface `cTrait`, method `len` (no receiver),
`wasm_only = true`. -/
theorem claim_C10_witness :
    ∃ out fn, generate cTrait true = Except.ok out ∧ fn ∈ out ∧
      fn.cfg = CfgGate.std ∧
      fn.name = create_function_ident_with_version mLen.sig.ident 1 ∧
      fn.params = (get_function_arguments mLen.sig).map
          (fun a => (⟨false, a.name, a.ty⟩ : Param))
        ++ (if true then [functionContextParam] else []) ∧
      (fn.params.getLast? = some functionContextParam ↔ true = true) ∧
      (true = true → takes_self_argument mLen.sig = false →
        fn.body = FnBody.versioned (create_function_ident_with_version mLen.sig.ident 1)
          (CallToTrait.qualified ImplTraitRef.functionContext cTrait.ident
            (create_function_ident_with_version mLen.sig.ident 1)
            (get_function_argument_names mLen.sig)) ∧
        (∀ c, fn.body =
            FnBody.versioned (create_function_ident_with_version mLen.sig.ident 1) c →
          mentionsIdent ("__function_context__") c = false)) :=
  claim_C10 cTrait cRI true 1 mLen (by rfl) (by decide) (by decide)

end BareFunctionInterface
